import Mathlib

/-!
Verification of the concurrent counter/buffer aggregator from the `buffer`
Go package (`New`, `AddError`, `FlushErrorBuffer`, `IncrementSuccess`,
`IncrementError`, `resetCounts`, `GetSuccessCount`, `GetErrorCount`,
`GetAggregation`, `Aggregation.FormatOutput`).

Modelling choices:
* A recorded failure cause (a Go `error` value) is modelled as
  `Option String`: `none` is a nil error, `some s` an error whose
  message (what `fmt`'s `%v` verb prints) is `s`.
* The two `int64` counters are modelled as `Int` with the
  two's-complement wrap of `atomic.AddInt64` made explicit: an increment
  stores `wrap64 (old + 1)`, so incrementing past `2^63 - 1` wraps to
  `-2^63` exactly as in the program.  `atomic.StoreInt64` of zero and
  `atomic.LoadInt64` neither wrap nor need to.
* Every method is a pure function from the receiver state to the result
  and the updated state; the mutex and the atomics make each source
  operation atomic, so a concurrent execution is an interleaving of these
  atomic steps, i.e. a sequential application of the transformers below.
-/

/-- A failure cause: `none` models a nil Go `error`, `some s` an error
formatting as `s`. -/
abbrev Cause := Option String

/-- Reduction of an integer to the two's-complement `int64` range
`[-2^63, 2^63)`, the overflow behaviour of Go's `atomic.AddInt64`
(9223372036854775808 is `2^63`, 18446744073709551616 is `2^64`). -/
def wrap64 (n : Int) : Int :=
  (n + 9223372036854775808) % 18446744073709551616 - 9223372036854775808

/-- What Go's `fmt.Sprintf("%v", err)` prints for an error value. -/
def formatCause : Cause → String
  | none => "<nil>"
  | some s => s

/-- The `Buffer` struct: a mutex-guarded error slice and two atomic
`int64` counters (the mutex itself has no state to model). -/
structure Buffer where
  ErrBuffer : List Cause
  SuccessCount : Int
  ErrorCount : Int
deriving DecidableEq, Repr

/-- `New` returns a `Buffer` with an empty error slice (counters are the
zero value of `int64`). -/
def Buffer.New : Buffer :=
  ⟨[], 0, 0⟩

/-- `AddError` appends `item` to the error slice under the mutex. -/
def Buffer.AddError (b : Buffer) (item : Cause) : Buffer :=
  { b with ErrBuffer := b.ErrBuffer ++ [item] }

/-- `FlushErrorBuffer` copies the slice contents, clears the slice to an
empty one, and returns the copy (first component) with the updated state
(second component). -/
def Buffer.FlushErrorBuffer (b : Buffer) : List Cause × Buffer :=
  (b.ErrBuffer, { b with ErrBuffer := [] })

/-- `IncrementSuccess` atomically adds one to the success counter with
`int64` wrap-around. -/
def Buffer.IncrementSuccess (b : Buffer) : Buffer :=
  { b with SuccessCount := wrap64 (b.SuccessCount + 1) }

/-- `IncrementError` atomically adds one to the error counter with
`int64` wrap-around. -/
def Buffer.IncrementError (b : Buffer) : Buffer :=
  { b with ErrorCount := wrap64 (b.ErrorCount + 1) }

/-- `resetCounts` atomically stores zero into both counters. -/
def Buffer.resetCounts (b : Buffer) : Buffer :=
  { b with SuccessCount := 0, ErrorCount := 0 }

/-- `GetSuccessCount` atomically loads the success counter. -/
def Buffer.GetSuccessCount (b : Buffer) : Int :=
  b.SuccessCount

/-- `GetErrorCount` atomically loads the error counter. -/
def Buffer.GetErrorCount (b : Buffer) : Int :=
  b.ErrorCount

/-- The `Aggregation` struct captured by `GetAggregation`. -/
structure Aggregation where
  Errors : List Cause
  SuccessCount : Int
  ErrorCount : Int
deriving DecidableEq, Repr

/-- The detail lines of `FormatOutput`: the Go loop
`for i, err := range a.Errors` emitting `"    %d: %v\n"` with `i+1`;
here `i` carries the 1-based index of the head entry. -/
def formatDetails : Nat → List Cause → String
  | _, [] => ""
  | i, c :: cs =>
      "    " ++ toString i ++ ": " ++ formatCause c ++ "\n" ++ formatDetails (i + 1) cs

/-- `FormatOutput` builds the report string: header, successes line,
errors line, and, when the error list is non-empty, the details block. -/
def Aggregation.FormatOutput (a : Aggregation) : String :=
  let r1 := "Aggregation Summary:\n"
  let r2 := r1 ++ "  Successes: " ++ toString a.SuccessCount ++ "\n"
  let r3 := r2 ++ "  Errors: " ++ toString a.ErrorCount ++ "\n"
  if a.Errors.length > 0 then
    r3 ++ "  Error Details:\n" ++ formatDetails 1 a.Errors
  else
    r3

/-- `GetAggregation` reads both counters, drains the error buffer into an
`Aggregation`, resets the counters, and returns the formatted report
(first component) with the updated state (second component). -/
def Buffer.GetAggregation (b : Buffer) : String × Buffer :=
  let aggr : Aggregation := ⟨(b.FlushErrorBuffer).1, b.GetSuccessCount, b.GetErrorCount⟩
  let b1 := (b.FlushErrorBuffer).2
  let b2 := b1.resetCounts
  (aggr.FormatOutput, b2)

/-- The operations of the aggregator, for stating state-machine
invariants over arbitrary call sequences. -/
inductive Op where
  | addError : Cause → Op
  | flushErrors : Op
  | incrementSuccess : Op
  | incrementError : Op
  | resetCounts : Op
  | getSuccessCount : Op
  | getErrorCount : Op
  | getAggregation : Op
deriving DecidableEq, Repr

/-- The state effect of one operation (read-only operations return the
state unchanged; the returned value of a read is the corresponding
`Get` function of the pre-state). -/
def applyOp (b : Buffer) : Op → Buffer
  | .addError c => b.AddError c
  | .flushErrors => (b.FlushErrorBuffer).2
  | .incrementSuccess => b.IncrementSuccess
  | .incrementError => b.IncrementError
  | .resetCounts => b.resetCounts
  | .getSuccessCount => b
  | .getErrorCount => b
  | .getAggregation => (b.GetAggregation).2

/-- The state after running a sequence of operations in order. -/
def applyOps (b : Buffer) (ops : List Op) : Buffer :=
  ops.foldl applyOp b

/-- How many `incrementSuccess` operations a sequence contains. -/
def countIncSuccess : List Op → Nat
  | [] => 0
  | op :: ops => (if op = Op.incrementSuccess then 1 else 0) + countIncSuccess ops

/-- How many `incrementError` operations a sequence contains. -/
def countIncError : List Op → Nat
  | [] => 0
  | op :: ops => (if op = Op.incrementError then 1 else 0) + countIncError ops

/-- Modelled from the spec: the report format prescribed by the spec
("Report format (exact, for compatibility)") — a header line, a
successes line, an errors line, and, if and only if the failure-detail
sequence is non-empty, an `Error Details:` line followed by one line per
entry of the form `"    {1-based index}: {cause}\n"` in order. -/
def specReport (s e : Int) (ds : List Cause) : String :=
  "Aggregation Summary:\n"
    ++ ("  Successes: " ++ toString s ++ "\n")
    ++ ("  Errors: " ++ toString e ++ "\n")
    ++ (if ds = [] then "" else "  Error Details:\n" ++ formatDetails 1 ds)

/-- Folding `AddError` over a list of causes appends them in order. -/
lemma foldl_addError (cs : List Cause) (b : Buffer) :
    (cs.foldl Buffer.AddError b).ErrBuffer = b.ErrBuffer ++ cs := by
  induction cs generalizing b with
  | nil => simp
  | cons c cs ih =>
      simp [List.foldl_cons, ih, Buffer.AddError, List.append_assoc]

/-- An integer already in the `int64` range is unchanged by `wrap64`. -/
lemma wrap64_eq_self (k : Int)
    (h1 : -9223372036854775808 ≤ k) (h2 : k < 9223372036854775808) :
    wrap64 k = k := by
  unfold wrap64
  omega

/-- Unfolding lemma for `GetSuccessCount` (a `rw`-safe equation, so a
goal mentioning a large buffer term is never reduced). -/
lemma GetSuccessCount_eq (b : Buffer) : b.GetSuccessCount = b.SuccessCount := rfl

/-- Unfolding lemma for the success counter of one increment. -/
lemma incrementSuccess_SuccessCount (b : Buffer) :
    (b.IncrementSuccess).SuccessCount = wrap64 (b.SuccessCount + 1) := rfl

/-- Iterating `IncrementSuccess` adds one per step to the success
counter as long as the counter stays below the `int64` overflow bound. -/
lemma iterate_incrementSuccess (n : Nat) (b : Buffer)
    (h0 : 0 ≤ b.SuccessCount)
    (h : b.SuccessCount + n < 2 ^ 63) :
    (Buffer.IncrementSuccess^[n] b).SuccessCount = b.SuccessCount + n := by
  have h63 : ((2 : Int) ^ 63) = 9223372036854775808 := by norm_num
  rw [h63] at h
  induction n generalizing b with
  | zero => simp
  | succ n ih =>
      push_cast at h
      have hw : (b.IncrementSuccess).SuccessCount = b.SuccessCount + 1 := by
        rw [incrementSuccess_SuccessCount]
        apply wrap64_eq_self <;> omega
      rw [Function.iterate_succ_apply,
        ih b.IncrementSuccess (by omega) (by rw [hw]; omega), hw]
      push_cast
      ring

/-- Iterating `IncrementError` adds one per step to the error counter
as long as the counter stays below the `int64` overflow bound. -/
lemma iterate_incrementError (n : Nat) (b : Buffer)
    (h0 : 0 ≤ b.ErrorCount)
    (h : b.ErrorCount + n < 2 ^ 63) :
    (Buffer.IncrementError^[n] b).ErrorCount = b.ErrorCount + n := by
  have h63 : ((2 : Int) ^ 63) = 9223372036854775808 := by norm_num
  rw [h63] at h
  induction n generalizing b with
  | zero => simp
  | succ n ih =>
      push_cast at h
      have hw : (b.IncrementError).ErrorCount = b.ErrorCount + 1 := by
        show wrap64 (b.ErrorCount + 1) = b.ErrorCount + 1
        apply wrap64_eq_self <;> omega
      rw [Function.iterate_succ_apply,
        ih b.IncrementError (by omega) (by rw [hw]; omega), hw]
      push_cast
      ring

/-- At the `int64` boundary the increment wraps: the 2^63-rd increment
from a fresh buffer lands on `-2^63`, not `2^63`. -/
lemma iterate_incrementSuccess_overflow :
    (Buffer.IncrementSuccess^[2 ^ 63] Buffer.New).SuccessCount = -(2 ^ 63) := by
  have hsplit : (2 : Nat) ^ 63 = (2 ^ 63 - 1) + 1 := by norm_num
  rw [hsplit, Function.iterate_succ_apply']
  have hprev : (Buffer.IncrementSuccess^[2 ^ 63 - 1] Buffer.New).SuccessCount
      = (2 : Int) ^ 63 - 1 := by
    rw [iterate_incrementSuccess (2 ^ 63 - 1) Buffer.New le_rfl (by norm_num [Buffer.New])]
    norm_num [Buffer.New]
  rw [incrementSuccess_SuccessCount, hprev]
  norm_num [wrap64]

/-- Running one more operation is one `applyOp` step before the rest. -/
lemma applyOps_cons (b : Buffer) (op : Op) (ops : List Op) :
    applyOps b (op :: ops) = applyOps (applyOp b op) ops := rfl

/-- A sequence of N `incrementSuccess` operations is the N-fold iterate
of `IncrementSuccess`. -/
lemma applyOps_replicate_incS (n : Nat) (b : Buffer) :
    applyOps b (List.replicate n Op.incrementSuccess) = Buffer.IncrementSuccess^[n] b := by
  induction n generalizing b with
  | zero => rfl
  | succ n ih =>
      rw [List.replicate_succ, applyOps_cons, ih, Function.iterate_succ_apply]
      rfl

/-- Along any operation sequence whose pending increments keep each
counter below the `int64` bound, both counters stay between zero and
their start value plus the number of increments of their kind. -/
lemma counts_bounded_ops (ops : List Op) (b : Buffer)
    (hs0 : 0 ≤ b.SuccessCount)
    (hsB : b.SuccessCount + (countIncSuccess ops : Int) < 9223372036854775808)
    (he0 : 0 ≤ b.ErrorCount)
    (heB : b.ErrorCount + (countIncError ops : Int) < 9223372036854775808) :
    (0 ≤ (applyOps b ops).SuccessCount ∧
        (applyOps b ops).SuccessCount ≤ b.SuccessCount + (countIncSuccess ops : Int)) ∧
    (0 ≤ (applyOps b ops).ErrorCount ∧
        (applyOps b ops).ErrorCount ≤ b.ErrorCount + (countIncError ops : Int)) := by
  induction ops generalizing b with
  | nil =>
      simp [applyOps, countIncSuccess, countIncError]
      exact ⟨hs0, he0⟩
  | cons op ops ih =>
      rw [applyOps_cons]
      cases op with
      | addError c =>
          have hc : countIncSuccess (Op.addError c :: ops) = countIncSuccess ops := by
            simp [countIncSuccess]
          have hce : countIncError (Op.addError c :: ops) = countIncError ops := by
            simp [countIncError]
          rw [hc] at hsB
          rw [hce] at heB
          rw [hc, hce]
          exact ih (applyOp b (Op.addError c)) hs0 hsB he0 heB
      | flushErrors =>
          have hc : countIncSuccess (Op.flushErrors :: ops) = countIncSuccess ops := by
            simp [countIncSuccess]
          have hce : countIncError (Op.flushErrors :: ops) = countIncError ops := by
            simp [countIncError]
          rw [hc] at hsB
          rw [hce] at heB
          rw [hc, hce]
          exact ih (applyOp b Op.flushErrors) hs0 hsB he0 heB
      | getSuccessCount =>
          have hc : countIncSuccess (Op.getSuccessCount :: ops) = countIncSuccess ops := by
            simp [countIncSuccess]
          have hce : countIncError (Op.getSuccessCount :: ops) = countIncError ops := by
            simp [countIncError]
          rw [hc] at hsB
          rw [hce] at heB
          rw [hc, hce]
          exact ih b hs0 hsB he0 heB
      | getErrorCount =>
          have hc : countIncSuccess (Op.getErrorCount :: ops) = countIncSuccess ops := by
            simp [countIncSuccess]
          have hce : countIncError (Op.getErrorCount :: ops) = countIncError ops := by
            simp [countIncError]
          rw [hc] at hsB
          rw [hce] at heB
          rw [hc, hce]
          exact ih b hs0 hsB he0 heB
      | resetCounts =>
          have hc : countIncSuccess (Op.resetCounts :: ops) = countIncSuccess ops := by
            simp [countIncSuccess]
          have hce : countIncError (Op.resetCounts :: ops) = countIncError ops := by
            simp [countIncError]
          rw [hc] at hsB
          rw [hce] at heB
          rw [hc, hce]
          have h := ih (applyOp b Op.resetCounts) le_rfl
            (by show (0 : Int) + _ < _; omega) le_rfl
            (by show (0 : Int) + _ < _; omega)
          refine ⟨⟨h.1.1, ?_⟩, ⟨h.2.1, ?_⟩⟩
          · have h12 : (applyOps (applyOp b Op.resetCounts) ops).SuccessCount
                ≤ 0 + (countIncSuccess ops : Int) := h.1.2
            omega
          · have h22 : (applyOps (applyOp b Op.resetCounts) ops).ErrorCount
                ≤ 0 + (countIncError ops : Int) := h.2.2
            omega
      | getAggregation =>
          have hc : countIncSuccess (Op.getAggregation :: ops) = countIncSuccess ops := by
            simp [countIncSuccess]
          have hce : countIncError (Op.getAggregation :: ops) = countIncError ops := by
            simp [countIncError]
          rw [hc] at hsB
          rw [hce] at heB
          rw [hc, hce]
          have h := ih (applyOp b Op.getAggregation) le_rfl
            (by show (0 : Int) + _ < _; omega) le_rfl
            (by show (0 : Int) + _ < _; omega)
          refine ⟨⟨h.1.1, ?_⟩, ⟨h.2.1, ?_⟩⟩
          · have h12 : (applyOps (applyOp b Op.getAggregation) ops).SuccessCount
                ≤ 0 + (countIncSuccess ops : Int) := h.1.2
            omega
          · have h22 : (applyOps (applyOp b Op.getAggregation) ops).ErrorCount
                ≤ 0 + (countIncError ops : Int) := h.2.2
            omega
      | incrementSuccess =>
          have hc : (countIncSuccess (Op.incrementSuccess :: ops) : Int)
              = (countIncSuccess ops : Int) + 1 := by
            simp [countIncSuccess]
            ring
          have hce : countIncError (Op.incrementSuccess :: ops) = countIncError ops := by
            simp [countIncError]
          rw [hc] at hsB
          rw [hce] at heB
          have hw : (applyOp b Op.incrementSuccess).SuccessCount = b.SuccessCount + 1 := by
            show wrap64 (b.SuccessCount + 1) = b.SuccessCount + 1
            apply wrap64_eq_self <;> omega
          have h := ih (applyOp b Op.incrementSuccess)
            (by rw [hw]; omega) (by rw [hw]; omega) he0 heB
          rw [hc, hce]
          refine ⟨⟨h.1.1, ?_⟩, ⟨h.2.1, ?_⟩⟩
          · have h12 := h.1.2
            rw [hw] at h12
            omega
          · exact h.2.2
      | incrementError =>
          have hc : (countIncError (Op.incrementError :: ops) : Int)
              = (countIncError ops : Int) + 1 := by
            simp [countIncError]
            ring
          have hcs : countIncSuccess (Op.incrementError :: ops) = countIncSuccess ops := by
            simp [countIncSuccess]
          rw [hc] at heB
          rw [hcs] at hsB
          have hw : (applyOp b Op.incrementError).ErrorCount = b.ErrorCount + 1 := by
            show wrap64 (b.ErrorCount + 1) = b.ErrorCount + 1
            apply wrap64_eq_self <;> omega
          have h := ih (applyOp b Op.incrementError)
            hs0 hsB (by rw [hw]; omega) (by rw [hw]; omega)
          rw [hc, hcs]
          refine ⟨⟨h.1.1, ?_⟩, ⟨h.2.1, ?_⟩⟩
          · exact h.1.2
          · have h22 := h.2.2
            rw [hw] at h22
            omega

/-- C1: for every success count `s`, error count `e` and drained
failure-detail list `ds`, the report produced by `FormatOutput` (hence by
`GetAggregation`) is exactly the header line, the successes line, the
errors line, and — if and only if `ds` is non-empty — the
`  Error Details:` line followed by one `    {1-based index}: {cause}`
line per entry in order; in particular, after 2 successes, 1 error count
and causes `["x", "y"]`, `GetAggregation` returns the exact example
report of the spec. -/
theorem formatOutput_matches_spec_report :
    (∀ (s e : Int) (ds : List Cause),
        Aggregation.FormatOutput ⟨ds, s, e⟩ = specReport s e ds) ∧
    (((((Buffer.New.IncrementSuccess).IncrementSuccess).IncrementError).AddError
          (some "x")).AddError (some "y")).GetAggregation.1
      = "Aggregation Summary:\n  Successes: 2\n  Errors: 1\n  Error Details:\n    1: x\n    2: y\n" := by
  constructor
  · intro s e ds
    cases ds with
    | nil => simp [Aggregation.FormatOutput, specReport, ← String.append_assoc]
    | cons c cs => simp [Aggregation.FormatOutput, specReport, ← String.append_assoc]
  · decide

/-- C2: appending causes `cs` via `AddError` to a buffer whose error
slice is empty and then calling `FlushErrorBuffer` returns exactly `cs`
in insertion order, and a second immediate flush returns the empty
list. -/
theorem flush_returns_appended_causes (b : Buffer) (cs : List Cause)
    (h : b.ErrBuffer = []) :
    ((cs.foldl Buffer.AddError b).FlushErrorBuffer).1 = cs ∧
    ((((cs.foldl Buffer.AddError b).FlushErrorBuffer).2).FlushErrorBuffer).1 = [] := by
  constructor
  · show (cs.foldl Buffer.AddError b).ErrBuffer = cs
    rw [foldl_addError, h, List.nil_append]
  · rfl

/-- Witness for C2 at a concrete buffer and cause list. -/
theorem flush_returns_appended_causes_witness :
    (([some "x", none].foldl Buffer.AddError Buffer.New).FlushErrorBuffer).1
        = [some "x", none] ∧
    (((([some "x", none].foldl Buffer.AddError Buffer.New).FlushErrorBuffer).2).FlushErrorBuffer).1
        = [] :=
  flush_returns_appended_causes Buffer.New [some "x", none] rfl

/-- C3: `GetAggregation` returns the report formatted from the success
count, error count and failure-detail list of the pre-call state, and in
the post-call state both counters are zero and the error slice is
empty. -/
theorem getAggregation_snapshot_then_reset (b : Buffer) :
    (b.GetAggregation).1
        = Aggregation.FormatOutput ⟨b.ErrBuffer, b.SuccessCount, b.ErrorCount⟩ ∧
    (b.GetAggregation).2.GetSuccessCount = 0 ∧
    (b.GetAggregation).2.GetErrorCount = 0 ∧
    (b.GetAggregation).2.ErrBuffer = [] :=
  ⟨rfl, rfl, rfl, rfl⟩

/-- C4: immediately after `GetAggregation` or after `resetCounts`,
`GetSuccessCount` and `GetErrorCount` both return 0, from every state. -/
theorem counters_zero_after_summarize_or_reset (b : Buffer) :
    ((b.GetAggregation).2.GetSuccessCount = 0 ∧
        (b.GetAggregation).2.GetErrorCount = 0) ∧
    ((b.resetCounts).GetSuccessCount = 0 ∧
        (b.resetCounts).GetErrorCount = 0) :=
  ⟨⟨rfl, rfl⟩, ⟨rfl, rfl⟩⟩

/-- C5 counterexample: the claim quantifies over every N, but the
`int64` counter of `atomic.AddInt64` wraps, so after N = 2^63 increments
from a fresh buffer `GetSuccessCount` returns `-2^63`, not N. -/
theorem n_increments_read_n_counterexample :
    ¬ ((Buffer.IncrementSuccess^[2 ^ 63] Buffer.New).GetSuccessCount
        = ((2 ^ 63 : Nat) : Int)) := by
  rw [GetSuccessCount_eq, iterate_incrementSuccess_overflow]
  intro hcontra
  norm_num at hcontra

/-- C5 (amended to N below the `int64` overflow bound): each increment
is a single atomic step, so any concurrent schedule of N such calls is
an interleaving of N applications of the increment transformer; for
every N < 2^63, after N of them starting from a zero success counter
`GetSuccessCount` returns N, and after N of them starting from a zero
error counter `GetErrorCount` returns N. -/
theorem n_increments_read_n (n : Nat) (b : Buffer) (hn : n < 2 ^ 63) :
    (b.SuccessCount = 0 → (Buffer.IncrementSuccess^[n] b).GetSuccessCount = (n : Int)) ∧
    (b.ErrorCount = 0 → (Buffer.IncrementError^[n] b).GetErrorCount = (n : Int)) := by
  have h63n : ((2 : Nat) ^ 63) = 9223372036854775808 := by norm_num
  have h63 : ((2 : Int) ^ 63) = 9223372036854775808 := by norm_num
  constructor
  · intro hs
    show (Buffer.IncrementSuccess^[n] b).SuccessCount = (n : Int)
    rw [iterate_incrementSuccess n b (by omega) (by rw [h63]; omega), hs, zero_add]
  · intro he
    show (Buffer.IncrementError^[n] b).ErrorCount = (n : Int)
    rw [iterate_incrementError n b (by omega) (by rw [h63]; omega), he, zero_add]

/-- Witness for C5 at N = 3 from a fresh buffer. -/
theorem n_increments_read_n_witness :
    (Buffer.IncrementSuccess^[3] Buffer.New).GetSuccessCount = ((3 : Nat) : Int) ∧
    (Buffer.IncrementError^[3] Buffer.New).GetErrorCount = ((3 : Nat) : Int) :=
  ⟨(n_increments_read_n 3 Buffer.New (by norm_num)).1 rfl,
   (n_increments_read_n 3 Buffer.New (by norm_num)).2 rfl⟩

/-- C6: every single operation either extends the failure-detail list
(the previous entries remaining an unchanged prefix) or drains it to
empty; no operation removes only part of it or reorders it. -/
theorem errBuffer_only_appended_or_drained (b : Buffer) (op : Op) :
    (∃ t, (applyOp b op).ErrBuffer = b.ErrBuffer ++ t) ∨
    (applyOp b op).ErrBuffer = [] := by
  cases op with
  | addError c => exact Or.inl ⟨[c], rfl⟩
  | flushErrors => exact Or.inr rfl
  | getAggregation => exact Or.inr rfl
  | incrementSuccess => exact Or.inl ⟨[], by simp [applyOp, Buffer.IncrementSuccess]⟩
  | incrementError => exact Or.inl ⟨[], by simp [applyOp, Buffer.IncrementError]⟩
  | resetCounts => exact Or.inl ⟨[], by simp [applyOp, Buffer.resetCounts]⟩
  | getSuccessCount => exact Or.inl ⟨[], by simp [applyOp]⟩
  | getErrorCount => exact Or.inl ⟨[], by simp [applyOp]⟩

/-- C7 counterexample: with the `int64` wrap of `atomic.AddInt64`, a
sequence of 2^63 `incrementSuccess` calls from a fresh buffer leaves the
success counter negative, and its last operation — an increment, not a
reset — strictly decreases the counter, refuting both non-negativity
and monotonicity as claimed. -/
theorem counts_nonneg_and_monotone_counterexample :
    (applyOps Buffer.New (List.replicate (2 ^ 63) Op.incrementSuccess)).SuccessCount < 0 ∧
    (applyOps Buffer.New (List.replicate (2 ^ 63) Op.incrementSuccess)).SuccessCount <
      (applyOps Buffer.New (List.replicate (2 ^ 63 - 1) Op.incrementSuccess)).SuccessCount := by
  rw [applyOps_replicate_incS, applyOps_replicate_incS, iterate_incrementSuccess_overflow,
    iterate_incrementSuccess (2 ^ 63 - 1) Buffer.New le_rfl (by norm_num [Buffer.New])]
  constructor <;> norm_num [Buffer.New]

/-- C7 (amended to stay below the `int64` overflow bound): from a newly
constructed buffer both counters stay non-negative after every operation
sequence containing fewer than 2^63 increments of each kind, and no
operation other than `resetCounts` or `GetAggregation` decreases either
counter from any state whose counters can be incremented without
leaving the `int64` range. -/
theorem counts_nonneg_and_monotone :
    (∀ ops : List Op,
        countIncSuccess ops < 2 ^ 63 → countIncError ops < 2 ^ 63 →
        0 ≤ (applyOps Buffer.New ops).SuccessCount ∧
        0 ≤ (applyOps Buffer.New ops).ErrorCount) ∧
    (∀ (b : Buffer) (op : Op), op ≠ Op.resetCounts → op ≠ Op.getAggregation →
        -(2 ^ 63) ≤ b.SuccessCount → b.SuccessCount + 1 < 2 ^ 63 →
        -(2 ^ 63) ≤ b.ErrorCount → b.ErrorCount + 1 < 2 ^ 63 →
        b.SuccessCount ≤ (applyOp b op).SuccessCount ∧
        b.ErrorCount ≤ (applyOp b op).ErrorCount) := by
  have h63n : ((2 : Nat) ^ 63) = 9223372036854775808 := by norm_num
  have h63 : ((2 : Int) ^ 63) = 9223372036854775808 := by norm_num
  constructor
  · intro ops h1 h2
    have h := counts_bounded_ops ops Buffer.New le_rfl
      (by show (0 : Int) + _ < _; omega) le_rfl
      (by show (0 : Int) + _ < _; omega)
    exact ⟨h.1.1, h.2.1⟩
  · intro b op h1 h2 hs1 hs2 he1 he2
    rw [h63] at hs1 hs2 he1 he2
    cases op with
    | resetCounts => exact absurd rfl h1
    | getAggregation => exact absurd rfl h2
    | addError c => exact ⟨le_rfl, le_rfl⟩
    | flushErrors => exact ⟨le_rfl, le_rfl⟩
    | getSuccessCount => exact ⟨le_rfl, le_rfl⟩
    | getErrorCount => exact ⟨le_rfl, le_rfl⟩
    | incrementSuccess =>
        refine ⟨?_, le_rfl⟩
        have hw : (applyOp b Op.incrementSuccess).SuccessCount = b.SuccessCount + 1 := by
          show wrap64 (b.SuccessCount + 1) = b.SuccessCount + 1
          apply wrap64_eq_self <;> omega
        rw [hw]
        omega
    | incrementError =>
        refine ⟨le_rfl, ?_⟩
        have hw : (applyOp b Op.incrementError).ErrorCount = b.ErrorCount + 1 := by
          show wrap64 (b.ErrorCount + 1) = b.ErrorCount + 1
          apply wrap64_eq_self <;> omega
        rw [hw]
        omega

/-- Witness for C7 at a one-increment sequence and a single increment
step from a fresh buffer. -/
theorem counts_nonneg_and_monotone_witness :
    (0 ≤ (applyOps Buffer.New [Op.incrementSuccess]).SuccessCount ∧
        0 ≤ (applyOps Buffer.New [Op.incrementSuccess]).ErrorCount) ∧
    (Buffer.New.SuccessCount ≤ (applyOp Buffer.New Op.incrementSuccess).SuccessCount ∧
        Buffer.New.ErrorCount ≤ (applyOp Buffer.New Op.incrementSuccess).ErrorCount) :=
  ⟨counts_nonneg_and_monotone.1 [Op.incrementSuccess] (by decide) (by decide),
   counts_nonneg_and_monotone.2 Buffer.New Op.incrementSuccess
      (by decide) (by decide) (by norm_num [Buffer.New]) (by norm_num [Buffer.New])
      (by norm_num [Buffer.New]) (by norm_num [Buffer.New])⟩

/-- C8: `AddError` is total over all cause values — including the nil
cause `none` — returns only the updated state, and stores the given
cause unchanged as the new last element of the failure-detail list. -/
theorem addError_accepts_and_appends_any_cause (b : Buffer) (c : Cause) :
    (b.AddError c).ErrBuffer = b.ErrBuffer ++ [c] ∧
    (b.AddError c).ErrBuffer.getLast? = some c := by
  refine ⟨rfl, ?_⟩
  simp [Buffer.AddError]

/-- C9: `New` produces an empty aggregator: both count reads return 0
and draining the failure details returns the empty list. -/
theorem new_buffer_is_empty :
    Buffer.New.GetSuccessCount = 0 ∧ Buffer.New.GetErrorCount = 0 ∧
    (Buffer.New.FlushErrorBuffer).1 = [] :=
  ⟨rfl, rfl, rfl⟩

/-- C10: the two state domains do not interfere and reads are pure:
`AddError` and `FlushErrorBuffer` leave both counters unchanged;
`IncrementSuccess`, `IncrementError` and `resetCounts` leave the
failure-detail list unchanged; the count reads leave the whole state
unchanged (and `FormatOutput`, a function of an already captured
`Aggregation`, touches no buffer state by construction). -/
theorem state_domains_do_not_interfere (b : Buffer) (c : Cause) :
    ((b.AddError c).SuccessCount = b.SuccessCount ∧
        (b.AddError c).ErrorCount = b.ErrorCount) ∧
    (((b.FlushErrorBuffer).2).SuccessCount = b.SuccessCount ∧
        ((b.FlushErrorBuffer).2).ErrorCount = b.ErrorCount) ∧
    ((b.IncrementSuccess).ErrBuffer = b.ErrBuffer ∧
        (b.IncrementError).ErrBuffer = b.ErrBuffer ∧
        (b.resetCounts).ErrBuffer = b.ErrBuffer) ∧
    (applyOp b Op.getSuccessCount = b ∧ applyOp b Op.getErrorCount = b) :=
  ⟨⟨rfl, rfl⟩, ⟨rfl, rfl⟩, ⟨rfl, rfl, rfl⟩, ⟨rfl, rfl⟩⟩
